import Mathlib

/-!
Verification development for the `App_add_ids` repository, a pair of
pandas/streamlit data-wrangling scripts:

* `App_add_ids.py` — attaches a `batter_id` to a leaderboard table via a
  two-stage (strict-then-relaxed) left join against uploaded mapping tables;
* `Append_yesterday_to_merged.py` — appends a new day's leaderboard to a
  running merged table with keep-last deduplication on a composite key.

The scripts are embedded shallowly:

* pandas missing values (`NaN`/`NaT`/`pd.NA`) are `Option.none`; present
  values are `some`.  Raw table cells are `Option String` (the scripts only
  ever inspect cells through `str(...)`/string methods, so the Python string
  rendering of each cell is taken as its value: e.g. the float `12345.0`
  enters as `some "12345.0"`, a missing cell as `none`; `astype(str)` turns a
  missing cell into the literal string `"nan"`).
* operations that raise a Python exception and abort the run (and
  `st.stop()` early exits) are modelled as `Option.none` results.
* `unidecode` is modelled as a per-character transliteration table covering
  the accented Latin-1 letters exercised here; it is the identity on ASCII,
  as the real library is on printable ASCII.
* `pd.to_datetime`'s free-form parser is modelled as a strict
  `YYYY-MM-DD` parser (`parseIsoDate`).  Every string the scripts feed to it
  is either such an ISO date (parses in pandas too), or a string on which the
  pandas/dateutil parser raises (e.g. `"8_13"`, `"13_8"`, `"junk"`), which
  the model reflects as `none`.
* `drop_duplicates(keep="last")` treats missing keys as equal to each other,
  as pandas does; this is reflected by deduplicating on an `Option` key.
-/

/-- The whitespace class of Python's `str.strip()` / regex `\s` on the ASCII
range: space, tab, newline, carriage return, vertical tab, form feed. -/
def isPySpace (c : Char) : Bool :=
  c = ' ' || c = '\t' || c = '\n' || c = '\r' || c = '\x0b' || c = '\x0c'

/-- Python `str.strip()` on a list of characters: drop leading and trailing
whitespace. -/
def pyStripList (l : List Char) : List Char :=
  ((l.dropWhile isPySpace).reverse.dropWhile isPySpace).reverse

/-- Python `str.strip()` on a string. -/
def pyStrip (s : String) : String :=
  String.mk (pyStripList s.data)

/-- Collapse maximal runs of `' '` to a single `' '` (the collapsing half of
`re.sub(r"\s+", " ", s)`; whitespace characters are first mapped to `' '`). -/
def squeezeSpaces : List Char → List Char
  | [] => []
  | a :: rest =>
    match squeezeSpaces rest with
    | [] => [a]
    | b :: tl => if a = ' ' && b = ' ' then b :: tl else a :: b :: tl

/-- Keyed deduplication keeping the last occurrence per key, preserving the
positions of the kept rows — the semantics of pandas
`drop_duplicates(subset=key, keep="last")`.  Used identically for the
identifier-map dedup (twice) and the merge-mode dedup. -/
def dropDupKeepLast {α κ : Type} [DecidableEq κ] (key : α → κ) : List α → List α
  | [] => []
  | a :: rest =>
    if rest.any (fun b => decide (key b = key a)) then dropDupKeepLast key rest
    else a :: dropDupKeepLast key rest

/-- Transliteration table: the single-character Latin transliterations of
`unidecode` for the accented letters modelled here.  `unidecode` is the
identity on printable ASCII, which the lookup-miss default reflects. -/
def translitTable : List (Char × Char) :=
  [('á', 'a'), ('é', 'e'), ('í', 'i'), ('ó', 'o'), ('ú', 'u'), ('ñ', 'n'), ('ü', 'u'),
   ('Á', 'A'), ('É', 'E'), ('Í', 'I'), ('Ó', 'O'), ('Ú', 'U'), ('Ñ', 'N'), ('Ü', 'U')]

/-- Modelled `unidecode` on one character (see `translitTable`). -/
def unidecodeChar (c : Char) : Char :=
  (translitTable.lookup c).getD c

/-- Characters replaced by a space in `clean_name`:
`re.sub(r"[\.\-']", " ", s)`. -/
def isNamePunct (c : Char) : Bool :=
  c = '.' || c = '-' || c = Char.ofNat 39

/-- The generational-suffix list of `clean_name`, in source order. -/
def sufList : List (List Char) :=
  [[',', ' ', 'J', 'R'], [' ', 'J', 'R'], [' ', 'J', 'R', '.'],
   [',', ' ', 'S', 'R'], [' ', 'S', 'R'], [' ', 'S', 'R', '.'],
   [' ', 'I', 'I'], [' ', 'I', 'I', 'I'], [' ', 'I', 'V']]

/-- One pass of the suffix-stripping loop of `clean_name`: for each suffix in
order, if the current string ends with it, cut it off (`s[:-len(suf)]`). -/
def stripSufs (l : List Char) : List Char :=
  sufList.foldl
    (fun acc suf => if suf.isSuffixOf acc then acc.take (acc.length - suf.length) else acc) l

/-- `clean_name` from `App_add_ids.py` (lines 47–54): `unidecode`, uppercase,
strip, replace `. - '` by spaces, collapse whitespace runs, strip one round of
generational suffixes, strip again.  `None` input yields `""`. -/
def clean_name (s : Option String) : String :=
  match s with
  | none => ""
  | some str =>
    let u := (str.data.map unidecodeChar).map Char.toUpper
    let stripped := pyStripList u
    let spaced := (stripped.map fun c => if isNamePunct c then ' ' else c).map
      fun c => if isPySpace c then ' ' else c
    let collapsed := squeezeSpaces spaced
    String.mk (pyStripList (stripSufs collapsed))

/-- `std_team` from `App_add_ids.py` (lines 56–58): `str(s).strip().upper()`;
missing input yields `""`. -/
def std_team (s : Option String) : String :=
  match s with
  | none => ""
  | some str => String.mk ((pyStripList str.data).map Char.toUpper)

/-- Strip one trailing `".0"` (the `v.endswith(".0")` branch of
`safe_str_id`, and the regex `\.0$` replacement of the append script). -/
def stripDot0 (v : String) : String :=
  if ['.', '0'].isSuffixOf v.data then String.mk (v.data.take (v.data.length - 2)) else v

/-- `safe_str_id` from `App_add_ids.py` (lines 60–68): missing value becomes
`""`; otherwise `str(s).strip()` with one trailing `".0"` removed. -/
def safe_str_id (s : Option String) : String :=
  match s with
  | none => ""
  | some str => stripDot0 (pyStrip str)

/-- A calendar date. -/
structure Date where
  y : Nat
  m : Nat
  d : Nat
deriving DecidableEq, Repr

/-- Gregorian leap-year test. -/
def isLeap (y : Nat) : Bool :=
  (y % 4 == 0 && y % 100 != 0) || (y % 400 == 0)

/-- Number of days in a month. -/
def daysInMonth (y m : Nat) : Nat :=
  if m = 2 then (if isLeap y then 29 else 28)
  else if m = 4 ∨ m = 6 ∨ m = 9 ∨ m = 11 then 30
  else 31

/-- Build a date, validating ranges the way `pd.to_datetime` validates a
`YYYY-MM-DD` string (invalid month/day raises, modelled as `none`). -/
def mkValidDate (y m d : Nat) : Option Date :=
  if 1 ≤ m ∧ m ≤ 12 ∧ 1 ≤ d ∧ d ≤ daysInMonth y m then some ⟨y, m, d⟩ else none

/-- Digits-to-number (the characters are known to be digits at use sites). -/
def digitsToNat (l : List Char) : Nat :=
  l.foldl (fun a c => a * 10 + (c.toNat - 48)) 0

/-- Left-pad a numeral string with zeros to the given width (Python
`{:0nd}` formatting for the widths used here). -/
def padNum (width n : Nat) : String :=
  let s := toString n
  String.mk (List.replicate (width - s.length) '0') ++ s

/-- Render a date as `YYYY-MM-DD` (the `%Y-%m-%d` / ISO rendering pandas uses
for normalized dates in the pipelines modelled here). -/
def dateIso (d : Date) : String :=
  padNum 4 d.y ++ "-" ++ padNum 2 d.m ++ "-" ++ padNum 2 d.d

/-- Modelled `pd.to_datetime(ss, errors="raise")` direct parse: a strict
zero-padded `YYYY-MM-DD` parser.  Every string the scripts hand to the pandas
parser either has this shape or makes the pandas/dateutil parser raise
(modelled as `none`). -/
def parseIsoDate (s : String) : Option Date :=
  match s.data with
  | [a, b, c, d, '-', e, f, '-', g, h] =>
    if ([a, b, c, d, e, f, g, h].all Char.isDigit) then
      mkValidDate (digitsToNat [a, b, c, d]) (digitsToNat [e, f]) (digitsToNat [g, h])
    else none
  | _ => none

/-- The regex `^\s*(\d{1,2})[^\d]+(\d{1,2})\s*$` applied (as in the scripts)
to an already-stripped string: a 1–2 digit month, a nonempty run of
non-digits, a 1–2 digit day, nothing else.  Returns the two numbers. -/
def mdMatch (l : List Char) : Option (Nat × Nat) :=
  let a := l.takeWhile Char.isDigit
  let r1 := l.dropWhile Char.isDigit
  let b := r1.takeWhile (fun c => !c.isDigit)
  let r2 := r1.dropWhile (fun c => !c.isDigit)
  let c := r2.takeWhile Char.isDigit
  let r3 := r2.dropWhile Char.isDigit
  if 1 ≤ a.length ∧ a.length ≤ 2 ∧ 1 ≤ b.length ∧ 1 ≤ c.length ∧ c.length ≤ 2 ∧ r3 = [] then
    some (digitsToNat a, digitsToNat c)
  else none

/-- Python truthiness of the optional year parameter (`if m and season_year`). -/
def truthyYear : Option Nat → Bool
  | none => false
  | some y => y != 0

/-- `to_date_ymd` from `App_add_ids.py` (lines 29–45): `NaT` on missing
input; else strip, try the direct parse; else try the `month-sep-day`
pattern with the fallback year, validating the resulting date; else `NaT`. -/
def to_date_ymd (s : Option String) (season_year : Option Nat) : Option Date :=
  match s with
  | none => none
  | some str =>
    let ss := pyStrip str
    match parseIsoDate ss with
    | some d => some d
    | none =>
      match mdMatch ss.data, truthyYear season_year with
      | some (mm, dd), true => mkValidDate (season_year.getD 0) mm dd
      | _, _ => none

/-- `to_ymd` from `Append_yesterday_to_merged.py` (lines 19–35): textually
the same algorithm as `to_date_ymd` (the two scripts duplicate it). -/
def to_ymd (s : Option String) (fallback_year : Option Nat) : Option Date :=
  match s with
  | none => none
  | some str =>
    let ss := pyStrip str
    match parseIsoDate ss with
    | some d => some d
    | none =>
      match mdMatch ss.data, truthyYear fallback_year with
      | some (mm, dd), true => mkValidDate (fallback_year.getD 0) mm dd
      | _, _ => none

/-! ## Join mode: `App_add_ids.py` module-level pipeline

The leaderboard is modelled after column discovery: the script hard-requires
`game_date` and `player_name`, uses `team_code` when that column exists
(`hasTeam`), and the remaining original columns are carried opaquely in
`rest`.  The uploaded leaderboard is the one "without batter_id", as the
script's own input description states, so no suffix clash arises in the
merge. -/

/-- A raw leaderboard row (cell values as their Python string renderings,
`none` for missing). -/
structure LBRow where
  game_date : Option String
  player_name : Option String
  team_code : Option String
  rest : List (Option String)
deriving DecidableEq, Repr

/-- A raw leaderboard table; `hasTeam` records whether the `team_code`
column exists. -/
structure LBTable where
  hasTeam : Bool
  rows : List LBRow
deriving DecidableEq, Repr

/-- Python `astype(str)` on one cell: a missing value renders as `"nan"`. -/
def pyStr (v : Option String) : String := v.getD "nan"

/-- A leaderboard row with the normalized key columns attached
(lines 97–100 of `App_add_ids.py`). -/
structure NLBRow where
  orig : LBRow
  date : Option Date
  name : String
  team : String
deriving DecidableEq, Repr

/-- Lines 97–100: `game_date_norm`, `player_name_norm`, `team_code_std`
(the latter `""` for every row when the column is absent). -/
def normalizeLB (sy : Option Nat) (t : LBTable) : List NLBRow :=
  t.rows.map fun r =>
    { orig := r
      date := to_date_ymd r.game_date sy
      name := clean_name (some (pyStr r.player_name))
      team := if t.hasTeam then std_team (some (pyStr r.team_code)) else "" }

/-- A raw mapping-table row, after column discovery (date, name, optional
team, identifier columns located by the alias lists). -/
structure MapRowRaw where
  mdate : Option String
  mname : Option String
  mteam : Option String
  mbid : Option String
deriving DecidableEq, Repr

/-- A raw mapping table; `hasTeam` records whether a team column was found. -/
structure MapTableRaw where
  hasTeam : Bool
  rows : List MapRowRaw
deriving DecidableEq, Repr

/-- A normalized identifier-map row
(`game_date_norm`, `player_name_norm`, `team_code_std`, `batter_id`). -/
structure MapRow where
  date : Option Date
  name : String
  team : String
  batter_id : String
deriving DecidableEq, Repr

/-- The `(game_date_norm, player_name_norm, team_code_std)` key. -/
def mapKey (r : MapRow) : Option Date × String × String :=
  (r.date, r.name, r.team)

/-- `normalize_map` from `App_add_ids.py` (lines 107–147), after column
discovery: normalize the four columns, `dropna` on date and name (the
normalized name is always a string, so only unparseable dates drop), and
deduplicate on the triple keeping the last occurrence. -/
def normalize_map (sy : Option Nat) (t : MapTableRaw) : List MapRow :=
  let rows := t.rows.map fun r =>
    ({ date := to_date_ymd r.mdate sy
       name := clean_name (some (pyStr r.mname))
       team := if t.hasTeam then std_team (some (pyStr r.mteam)) else ""
       batter_id := safe_str_id r.mbid } : MapRow)
  dropDupKeepLast mapKey (rows.filter fun r => r.date.isSome)

/-- Lines 164–165: concatenate all per-source identifier maps and
deduplicate on the triple keeping the last occurrence. -/
def buildIdmap (sy : Option Nat) (ts : List MapTableRaw) : List MapRow :=
  dropDupKeepLast mapKey ((ts.map (normalize_map sy)).flatten)

/-- One row of the stage-1 merge result `m1`: the leaderboard row plus the
`batter_id` column from the identifier map (`none` = unmatched `NaN`). -/
structure M1Row where
  lrow : NLBRow
  batter_id : Option String
deriving DecidableEq, Repr

/-- The identifier-map rows matching a leaderboard row on the full strict
triple `(date, name, team)`. -/
def strictMatches (idmap : List MapRow) (r : NLBRow) : List MapRow :=
  idmap.filter fun mr => decide (mr.date = r.date ∧ mr.name = r.name ∧ mr.team = r.team)

/-- The identifier-map rows matching a leaderboard row on the relaxed pair
`(date, name)` — the map with its team column dropped. -/
def relaxedMatches (idmap : List MapRow) (r : NLBRow) : List MapRow :=
  idmap.filter fun mr => decide (mr.date = r.date ∧ mr.name = r.name)

/-- Stage 1 (lines 171–176): left-join the leaderboard to the identifier map
on the strict triple.  As in pandas, an unmatched left row is emitted once
with `NaN`, and a left row is emitted once per matching right row. -/
def m1Rows (lb : List NLBRow) (idmap : List MapRow) : List M1Row :=
  lb.flatMap fun r =>
    let ms := strictMatches idmap r
    if ms.isEmpty then [⟨r, none⟩] else ms.map fun mr => ⟨r, some mr.batter_id⟩

/-- The stage-2 fill column (lines 183–187): left-join the still-unmatched
rows to the identifier map on the relaxed pair and take its `batter_id`
column.  No deduplication is applied to the relaxed key, so a needed row
with several relaxed matches contributes several fill values. -/
def fillsFor (idmap : List MapRow) (needRows : List M1Row) : List (Option String) :=
  needRows.flatMap fun x =>
    let ms := relaxedMatches idmap x.lrow
    if ms.isEmpty then [none] else ms.map fun mr => some mr.batter_id

/-- `m1.loc[need, "batter_id"] = fill.values`: walk the rows, replacing the
identifier of each still-missing row with the next fill value. -/
def assignFills : List M1Row → List (Option String) → List M1Row
  | [], _ => []
  | x :: rest, fl =>
    if x.batter_id.isNone then
      { x with batter_id := fl.headD none } :: assignFills rest fl.tail
    else x :: assignFills rest fl

/-- The two-stage merge (lines 171–191).  `none` models a raised
`ValueError`: pandas rejects the stage-2 boolean indexing/assignment when the
mask or the fill column does not line up with the rows it is applied to
(which happens exactly when some still-unmatched row has several relaxed
matches, making `fill` longer than the masked selection). -/
def twoStage (lb : List NLBRow) (idmap : List MapRow) : Option (List M1Row) :=
  let m1 := m1Rows lb idmap
  let needRows := m1.filter fun x => x.batter_id.isNone
  if needRows.isEmpty then some m1
  else if m1.length ≠ lb.length then none
  else
    let fl := fillsFor idmap needRows
    if fl.length ≠ needRows.length then none
    else some (assignFills m1 fl)

/-- The full join-mode run up to `m1` (stops: no mapping files uploaded; no
leaderboard date parsed at all). -/
def addIds (sy : Option Nat) (lbt : LBTable) (maps : List MapTableRaw) : Option (List M1Row) :=
  if maps.isEmpty then none
  else
    let lbN := normalizeLB sy lbt
    if lbN.all (fun r => r.date.isNone) then none
    else twoStage lbN (buildIdmap sy maps)

/-- One row of the downloadable output (line 213 drops the two normalized
key columns and keeps everything else plus `batter_id`). -/
structure OutRow where
  orig : LBRow
  team_code_std : String
  batter_id : String
deriving DecidableEq, Repr

/-- Line 215: `out["batter_id"] = out["batter_id"].fillna("").apply(safe_str_id)`. -/
def finalizeOut (m : List M1Row) : List OutRow :=
  m.map fun x =>
    { orig := x.lrow.orig
      team_code_std := x.lrow.team
      batter_id := safe_str_id (some (x.batter_id.getD "")) }

/-- The full join-mode run, producing the downloadable table. -/
def addIdsOut (sy : Option Nat) (lbt : LBTable) (maps : List MapTableRaw) :
    Option (List OutRow) :=
  (addIds sy lbt maps).map finalizeOut

/-! ## Merge mode: `Append_yesterday_to_merged.py`

Tables are modelled as a column-name list plus rows of cells
(`Option String`, `none` = missing).  Normalized dates are stored as their
ISO rendering, matching how the dedupe key casts the date column to
string-dtype (where `NaT` becomes a missing string, and missing values
propagate through string concatenation). -/

/-- A table cell: `none` is a pandas missing value. -/
abbrev Cell := Option String

/-- A data frame: column names plus rows (each row aligned with `cols`). -/
structure DF where
  cols : List String
  rows : List (List Cell)
deriving DecidableEq, Repr

/-- Value of a row at a named column (`none` when the column is absent — the
pipelines below only read columns they have ensured exist). -/
def getCell (cols : List String) (r : List Cell) (c : String) : Cell :=
  match cols.findIdx? (fun x => x = c) with
  | some i => (r.get? i).getD none
  | none => none

/-- Overwrite a row's value at a named column (no-op if absent). -/
def setCell (cols : List String) (r : List Cell) (c : String) (v : Cell) : List Cell :=
  match cols.findIdx? (fun x => x = c) with
  | some i => r.set i v
  | none => r

/-- `list(dict.fromkeys(a + b))`: union of the column lists, first-seen
order. -/
def unionCols (a b : List String) : List String :=
  (a ++ b).foldl (fun acc c => if acc.contains c then acc else acc ++ [c]) []

/-- `df.reindex(columns=newCols)`: select the named columns in order, absent
ones becoming missing. -/
def reindexRow (oldCols newCols : List String) (r : List Cell) : List Cell :=
  newCols.map fun c => getCell oldCols r c

/-- Reindex a whole table to a new column list. -/
def reindex (df : DF) (newCols : List String) : DF :=
  ⟨newCols, df.rows.map (reindexRow df.cols newCols)⟩

/-- Assign a column (`df[c] = vals`), appending it if absent. -/
def setCol (df : DF) (c : String) (vals : List Cell) : DF :=
  if df.cols.contains c then
    ⟨df.cols, (df.rows.zip vals).map fun p => setCell df.cols p.1 c p.2⟩
  else
    ⟨df.cols ++ [c], (df.rows.zip vals).map fun p => p.1 ++ [p.2]⟩

/-- The dedupe key of one combined row (lines 70–78 of
`Append_yesterday_to_merged.py`).  When a `batter_id` column exists the key
is `game_date || batter_id || player_name` with missing id/name filled by
`""`; otherwise it is `game_date || player_name` with no filling.  The date
column is cast to string-dtype first, so a missing date makes the whole
concatenated key missing (`none`), as does a missing name in the second
branch.  When the `player_name` column is absent, `out.get` falls back to a
default all-`""` column (but see `dedupe_concat` for when that default can
even be constructed). -/
def rowKey (cols : List String) (r : List Cell) : Option String :=
  let nameCell : Cell := if cols.contains "player_name" then getCell cols r "player_name" else some ""
  if cols.contains "batter_id" then
    match getCell cols r "game_date" with
    | none => none
    | some ds =>
      some (ds ++ "||" ++ (getCell cols r "batter_id").getD "" ++ "||" ++ nameCell.getD "")
  else
    match getCell cols r "game_date", nameCell with
    | some ds, some ns => some (ds ++ "||" ++ ns)
    | _, _ => none

/-- `dedupe_concat` (lines 63–83): union the columns, reindex both tables,
concatenate old rows then new rows, build the composite key, deduplicate on
it keeping the last occurrence.

Both key branches evaluate
`out.get("player_name", pd.Series([""], index=out.index))`, and Python
evaluates that default argument eagerly: `pd.Series` is handed a length-1
list of values against an index of length `len(out)`, which raises
`ValueError` unless the combined table has exactly one row.  The raise is
modelled as `none`. -/
def dedupe_concat (old yday : DF) : Option DF :=
  let allCols := unionCols old.cols yday.cols
  let outRows := (reindex old allCols).rows ++ (reindex yday allCols).rows
  if outRows.length ≠ 1 then none
  else some ⟨allCols, dropDupKeepLast (rowKey allCols) outRows⟩

/-- The date-column alias search of `normalize` (lines 42–45). -/
def findDateCol (cols : List String) : Option String :=
  if cols.contains "game_date" then some "game_date"
  else ["date", "Date", "GAME_DATE", "game day", "game day "].find? fun c => cols.contains c

/-- The player-name alias search of `normalize` (lines 51–55). -/
def findNameCol (cols : List String) : Option String :=
  ["player name", "Player", "PLAYER_NAME", "name", "Name"].find? fun c => cols.contains c

/-- Lines 57–60: `batter_id` cast to string (missing → `"nan"`), one
trailing `".0"` removed, then `""`/`"nan"`/`"NaN"` set back to missing. -/
def sanitizeBid (v : Cell) : Cell :=
  let s := stripDot0 (pyStr v)
  if s = "" ∨ s = "nan" ∨ s = "NaN" then none else some s

/-- `normalize` (lines 37–61): strip column names, find a date column (hard
stop if none, modelled `none`), parse it with `to_ymd` into `game_date`
(stored as its ISO rendering, missing for `NaT`), copy a name-alias column
to `player_name` if needed, sanitize `batter_id` if present. -/
def normalizeApp (sy : Option Nat) (raw : DF) : Option DF :=
  let df : DF := ⟨raw.cols.map pyStrip, raw.rows⟩
  match findDateCol df.cols with
  | none => none
  | some dc =>
    let df := setCol df "game_date"
      (df.rows.map fun r => (to_ymd (getCell df.cols r dc) sy).map dateIso)
    let df := if df.cols.contains "player_name" then df
      else match findNameCol df.cols with
        | some nc => setCol df "player_name" (df.rows.map fun r => getCell df.cols r nc)
        | none => df
    let df := if df.cols.contains "batter_id" then
        setCol df "batter_id" (df.rows.map fun r => sanitizeBid (getCell df.cols r "batter_id"))
      else df
    some df

/-- Line 119: re-render the (already normalized) date column as
`YYYY-MM-DD` strings; unparseable/missing stays missing. -/
def prettyDates (df : DF) : DF :=
  ⟨df.cols, df.rows.map fun r =>
    setCell df.cols r "game_date"
      (match getCell df.cols r "game_date" with
       | none => none
       | some s => (parseIsoDate s).map dateIso)⟩

/-- The full append-mode run (lines 95–119): normalize both uploads, run
`dedupe_concat`, pretty-print the date column. -/
def appendPipeline (sy : Option Nat) (old yday : DF) : Option DF :=
  match normalizeApp sy old, normalizeApp sy yday with
  | some a, some b => (dedupe_concat a b).map prettyDates
  | _, _ => none

/-! ## Concrete scenario data for the claims -/

/-- The leaderboard of the spec's join example: one row with
`game_date "2025-08-13"`, `player_name "A.J. Smith Jr."`, `team_code "nyy"`. -/
def lbC1 : LBTable :=
  ⟨true, [⟨some "2025-08-13", some "A.J. Smith Jr.", some "nyy", []⟩]⟩

/-- The mapping upload of the spec's join example: one row with the float
identifier `12345.0`. -/
def mapsC1 : List MapTableRaw :=
  [⟨true, [⟨some "2025-08-13", some "AJ Smith", some "NYY", some "12345.0"⟩]⟩]

/-- One-row leaderboard whose team matches no mapping row strictly. -/
def lbC2 : LBTable :=
  ⟨true, [⟨some "2025-08-13", some "X Y", some "LAA", []⟩]⟩

/-- A mapping upload with a duplicated relaxed `(date, name)` key (two
teams for the same date and name). -/
def mapsC2 : List MapTableRaw :=
  [⟨true, [⟨some "2025-08-13", some "X Y", some "NYY", some "1"⟩,
           ⟨some "2025-08-13", some "X Y", some "BOS", some "2"⟩]⟩]

/-- One-row leaderboard for a successful strict join. -/
def lbC2w : LBTable :=
  ⟨true, [⟨some "2025-08-13", some "X Y", some "NYY", []⟩]⟩

/-- One-row leaderboard, strictly unmatched (different team). -/
def lbC3 : LBTable :=
  ⟨true, [⟨some "2025-07-04", some "Q R", some "HOU", []⟩]⟩

/-- Mapping upload with two residual duplicates on the relaxed key. -/
def mapsC3 : List MapTableRaw :=
  [⟨true, [⟨some "2025-07-04", some "Q R", some "SEA", some "7"⟩,
           ⟨some "2025-07-04", some "Q R", some "TEX", some "8"⟩]⟩]

/-- Normalized leaderboard row for the stage-2 fill witness. -/
def nrowC3w : NLBRow :=
  ⟨⟨some "2025-06-01", some "Al Bo", some "AAA", []⟩, some ⟨2025, 6, 1⟩, "AL BO", "AAA"⟩

/-- One-row normalized leaderboard for the stage-2 fill witness. -/
def lbC3w : List NLBRow := [nrowC3w]

/-- Identifier map with one relaxed match under a different team. -/
def idmapC3w : List MapRow :=
  [⟨some ⟨2025, 6, 1⟩, "AL BO", "BBB", "77"⟩]

/-- Normalized leaderboard row for the stage-1 precedence witness. -/
def nrowC6w : NLBRow :=
  ⟨⟨some "2025-06-02", some "Cd Ef", some "NYY", []⟩, some ⟨2025, 6, 2⟩, "CD EF", "NYY"⟩

/-- One-row normalized leaderboard for the stage-1 precedence witness. -/
def lbC6w : List NLBRow := [nrowC6w]

/-- Identifier map with a strict match for `lbC6w`. -/
def idmapC6w : List MapRow :=
  [⟨some ⟨2025, 6, 2⟩, "CD EF", "NYY", "55"⟩]

/-- Normalized form of the `lbC10` leaderboard row. -/
def nrowC10 : NLBRow :=
  ⟨⟨some "2025-05-05", some "G H", some "M", []⟩, some ⟨2025, 5, 5⟩, "G H", "M"⟩

/-- One-row leaderboard whose strict triple matches a mapping row carrying a
missing identifier. -/
def lbC10 : LBTable :=
  ⟨true, [⟨some "2025-05-05", some "G H", some "M", []⟩]⟩

/-- Mapping upload: the strict match has a missing identifier; a relaxed
match under another team carries `999`. -/
def mapsC10 : List MapTableRaw :=
  [⟨true, [⟨some "2025-05-05", some "G H", some "M", none⟩,
           ⟨some "2025-05-05", some "G H", some "N", some "999"⟩]⟩]

/-- Merge-mode old table: one row, `batter_id 100`, name `Ann`. -/
def oldC4 : DF :=
  ⟨["game_date", "player_name", "batter_id"], [[some "2025-08-14", some "Ann", some "100"]]⟩

/-- Merge-mode new table: same date and identifier, name `Bob`. -/
def newC4 : DF :=
  ⟨["game_date", "player_name", "batter_id"], [[some "2025-08-14", some "Bob", some "100"]]⟩

/-- The spec's merge example, old side: `stat 5`. -/
def oldC8 : DF :=
  ⟨["game_date", "player_name", "batter_id", "stat"],
   [[some "2025-08-14", some "J Doe", some "100", some "5"]]⟩

/-- The spec's merge example, new side: `stat 9`. -/
def newC8 : DF :=
  ⟨["game_date", "player_name", "batter_id", "stat"],
   [[some "2025-08-14", some "J Doe", some "100", some "9"]]⟩

/-- Old table with an unparseable date and player `Alice`. -/
def oldC9 : DF :=
  ⟨["game_date", "player_name", "batter_id"], [[some "junk", some "Alice", some "1"]]⟩

/-- New table with an unparseable date and player `Bob`. -/
def newC9 : DF :=
  ⟨["game_date", "player_name", "batter_id"], [[some "bad", some "Bob", some "2"]]⟩

/-- One-row table for the merge-mode crash witness. -/
def oldC4W : DF := ⟨["game_date"], [[some "2025-01-02"]]⟩

/-- Another one-row table for the merge-mode crash witness. -/
def newC4W : DF := ⟨["game_date"], [[some "2025-01-02"]]⟩


/-! ## Helper lemmas: keyed deduplication -/

theorem dropDupKeepLast_sublist {α κ : Type} [DecidableEq κ] (key : α → κ) :
    ∀ l : List α, (dropDupKeepLast key l).Sublist l := by
  intro l
  induction l with
  | nil => simp [dropDupKeepLast]
  | cons a rest ih =>
    rw [dropDupKeepLast]
    split
    · exact ih.cons a
    · exact ih.cons₂ a

theorem dropDupKeepLast_pairwise {α κ : Type} [DecidableEq κ] (key : α → κ) :
    ∀ l : List α, (dropDupKeepLast key l).Pairwise (fun a b => key a ≠ key b) := by
  intro l
  induction l with
  | nil => simp [dropDupKeepLast]
  | cons a rest ih =>
    rw [dropDupKeepLast]
    split
    · exact ih
    · refine List.Pairwise.cons ?_ ih
      intro b hb hkey
      rename_i hany
      have hb' : b ∈ rest := (dropDupKeepLast_sublist key rest).mem hb
      exact hany (List.any_eq_true.mpr ⟨b, hb', by simpa using hkey.symm⟩)

theorem filter_const_key_length_le_one {α κ : Type} (key : α → κ) (k : κ)
    (p : α → Bool) (h : ∀ x, p x = true → key x = k) :
    ∀ l : List α, l.Pairwise (fun a b => key a ≠ key b) →
      (l.filter p).length ≤ 1 := by
  intro l hl
  induction l with
  | nil => simp
  | cons a rest ih =>
    rw [List.filter_cons]
    rcases List.pairwise_cons.mp hl with ⟨ha, hrest⟩
    split
    · rename_i hpa
      have hfilt : rest.filter p = [] := by
        by_contra hne
        rcases List.exists_mem_of_ne_nil _ hne with ⟨b, hb⟩
        have hbmem : b ∈ rest := List.mem_of_mem_filter hb
        have hpb : p b = true := List.of_mem_filter hb
        exact ha b hbmem ((h a hpa).trans (h b hpb).symm)
      simp [hfilt]
    · exact ih hrest

/-! ## Helper lemmas: flatMap contribution counting -/

theorem length_le_length_flatMap {α β : Type} (f : α → List β) :
    ∀ l : List α, (∀ a ∈ l, 1 ≤ (f a).length) → l.length ≤ (l.flatMap f).length := by
  intro l
  induction l with
  | nil => simp
  | cons a rest ih =>
    intro h
    rw [List.flatMap_cons, List.length_append]
    have h1 := h a (List.mem_cons_self a rest)
    have h2 := ih fun b hb => h b (List.mem_cons_of_mem a hb)
    have := Nat.add_le_add h1 h2
    simp only [List.length_cons]
    omega

theorem flatMap_length_eq_forall_one {α β : Type} (f : α → List β) :
    ∀ l : List α, (∀ a ∈ l, 1 ≤ (f a).length) →
      (l.flatMap f).length = l.length → ∀ a ∈ l, (f a).length = 1 := by
  intro l
  induction l with
  | nil => simp
  | cons a rest ih =>
    intro hge hlen b hb
    rw [List.flatMap_cons, List.length_append, List.length_cons] at hlen
    have h1 := hge a (List.mem_cons_self a rest)
    have hge' : ∀ x ∈ rest, 1 ≤ (f x).length := fun x hx => hge x (List.mem_cons_of_mem a hx)
    have h2 := length_le_length_flatMap f rest hge'
    have hfa : (f a).length = 1 := by omega
    have hrest : (rest.flatMap f).length = rest.length := by omega
    rcases List.mem_cons.mp hb with rfl | hb'
    · exact hfa
    · exact ih hge' hrest b hb'

theorem flatMap_length_of_one {α β : Type} (f : α → List β) :
    ∀ l : List α, (∀ a ∈ l, (f a).length = 1) → (l.flatMap f).length = l.length := by
  intro l
  induction l with
  | nil => simp
  | cons a rest ih =>
    intro h
    rw [List.flatMap_cons, List.length_append, List.length_cons,
      h a (List.mem_cons_self a rest), ih fun b hb => h b (List.mem_cons_of_mem a hb)]
    omega

/-! ## Helper lemmas: the two-stage join -/

theorem buildIdmap_pairwise (sy : Option Nat) (ts : List MapTableRaw) :
    (buildIdmap sy ts).Pairwise (fun a b => mapKey a ≠ mapKey b) :=
  dropDupKeepLast_pairwise mapKey _

theorem strictMatches_length_le_one (idmap : List MapRow) (r : NLBRow)
    (h : idmap.Pairwise (fun a b => mapKey a ≠ mapKey b)) :
    (strictMatches idmap r).length ≤ 1 := by
  refine filter_const_key_length_le_one mapKey (r.date, r.name, r.team) _ ?_ idmap h
  intro mr hmr
  have := of_decide_eq_true hmr
  simp [mapKey, this.1, this.2.1, this.2.2]

theorem m1Rows_eq_map (lb : List NLBRow) (idmap : List MapRow)
    (h : ∀ r ∈ lb, (strictMatches idmap r).length ≤ 1) :
    m1Rows lb idmap =
      lb.map fun r => ⟨r, ((strictMatches idmap r).head?).map MapRow.batter_id⟩ := by
  induction lb with
  | nil => simp [m1Rows]
  | cons r rest ih =>
    rw [m1Rows, List.flatMap_cons, List.map_cons]
    have hr := h r (List.mem_cons_self r rest)
    have htail : m1Rows rest idmap = _ := ih fun x hx => h x (List.mem_cons_of_mem r hx)
    rw [m1Rows] at htail
    rw [htail]
    match hms : strictMatches idmap r with
    | [] => simp
    | [mr] => simp
    | mr1 :: mr2 :: t => rw [hms] at hr; simp at hr

theorem fillsFor_eq_map (idmap : List MapRow) (needRows : List M1Row)
    (h : ∀ x ∈ needRows, (relaxedMatches idmap x.lrow).length ≤ 1) :
    fillsFor idmap needRows =
      needRows.map fun x => ((relaxedMatches idmap x.lrow).head?).map MapRow.batter_id := by
  induction needRows with
  | nil => simp [fillsFor]
  | cons x rest ih =>
    rw [fillsFor, List.flatMap_cons, List.map_cons]
    have hx := h x (List.mem_cons_self x rest)
    have htail : fillsFor idmap rest = _ := ih fun y hy => h y (List.mem_cons_of_mem x hy)
    rw [fillsFor] at htail
    rw [htail]
    match hms : relaxedMatches idmap x.lrow with
    | [] => simp
    | [mr] => simp
    | mr1 :: mr2 :: t => rw [hms] at hx; simp at hx

theorem fillsFor_contrib_ge_one (idmap : List MapRow) (x : M1Row) :
    1 ≤ (if (relaxedMatches idmap x.lrow).isEmpty then [(none : Option String)]
         else (relaxedMatches idmap x.lrow).map fun mr => some mr.batter_id).length := by
  split
  · simp
  · rename_i hne
    rw [List.length_map]
    cases hms : relaxedMatches idmap x.lrow with
    | nil => rw [hms] at hne; simp at hne
    | cons a t => simp

theorem assignFills_length (m : List M1Row) :
    ∀ fl, (assignFills m fl).length = m.length := by
  induction m with
  | nil => intro fl; rfl
  | cons x rest ih =>
    intro fl
    rw [assignFills]
    split <;> simp [ih]

theorem assignFills_getElem?_isSome (m : List M1Row) :
    ∀ (fl : List (Option String)) (i : Nat) (x : M1Row), m[i]? = some x →
      x.batter_id.isSome = true → (assignFills m fl)[i]? = some x := by
  induction m with
  | nil => intro fl i x hx _; simp at hx
  | cons y rest ih =>
    intro fl i x hx hsome
    rw [assignFills]
    split
    · rename_i hy
      cases i with
      | zero =>
        simp only [List.getElem?_cons_zero, Option.some.injEq] at hx
        rw [Option.isNone_iff_eq_none] at hy
        rw [← hx, hy] at hsome
        simp at hsome
      | succ j =>
        simp only [List.getElem?_cons_succ] at hx ⊢
        exact ih fl.tail j x hx hsome
    · cases i with
      | zero =>
        simp only [List.getElem?_cons_zero, Option.some.injEq] at hx
        simp [hx]
      | succ j =>
        simp only [List.getElem?_cons_succ] at hx ⊢
        exact ih fl j x hx hsome

theorem assignFills_map_filter (f : M1Row → Option String) :
    ∀ m : List M1Row,
      assignFills m ((m.filter fun x => x.batter_id.isNone).map f) =
        m.map fun x => if x.batter_id.isNone then ⟨x.lrow, f x⟩ else x := by
  intro m
  induction m with
  | nil => rfl
  | cons x rest ih =>
    cases hx : x.batter_id.isNone with
    | true =>
      simp [List.filter_cons, assignFills, hx, ih]
      rw [if_pos (Option.isNone_iff_eq_none.mp hx)]
    | false =>
      simp [List.filter_cons, assignFills, hx, ih]
      rw [if_neg fun h => by simp [h] at hx]

theorem fillsFor_eq_flatMap (idmap : List MapRow) (needRows : List M1Row) :
    fillsFor idmap needRows = needRows.flatMap
      (fun x => if (relaxedMatches idmap x.lrow).isEmpty then [(none : Option String)]
        else (relaxedMatches idmap x.lrow).map fun mr => some mr.batter_id) := rfl

theorem twoStage_untouched (lb : List NLBRow) (idmap : List MapRow) (out : List M1Row)
    (hout : twoStage lb idmap = some out) (i : Nat) (x : M1Row)
    (hx : (m1Rows lb idmap)[i]? = some x) (hsome : x.batter_id.isSome = true) :
    out[i]? = some x := by
  simp only [twoStage] at hout
  split at hout
  · injection hout with h
    subst h
    exact hx
  · split at hout
    · exact absurd hout (by simp)
    · split at hout
      · exact absurd hout (by simp)
      · injection hout with h
        subst h
        exact assignFills_getElem?_isSome _ _ i x hx hsome

theorem twoStage_needed (lb : List NLBRow) (idmap : List MapRow) (out : List M1Row)
    (hout : twoStage lb idmap = some out) (i : Nat) (x : M1Row)
    (hx : (m1Rows lb idmap)[i]? = some x) (hnone : x.batter_id = none) :
    out[i]? =
      some ⟨x.lrow, ((relaxedMatches idmap x.lrow).head?).map MapRow.batter_id⟩ := by
  simp only [twoStage] at hout
  split at hout
  · rename_i hemp
    have hxmem : x ∈ m1Rows lb idmap := by
      rcases List.getElem?_eq_some_iff.mp hx with ⟨h, rfl⟩
      exact List.getElem_mem h
    have : x ∈ (m1Rows lb idmap).filter fun y => y.batter_id.isNone :=
      List.mem_filter.mpr ⟨hxmem, by simp [hnone]⟩
    rw [List.isEmpty_iff.mp hemp] at this
    simp at this
  · split at hout
    · exact absurd hout (by simp)
    · split at hout
      · exact absurd hout (by simp)
      · rename_i hemp hlen hfl
        injection hout with h
        subst h
        rw [Ne, not_not] at hfl
        rw [fillsFor_eq_flatMap] at hfl
        have hone := flatMap_length_eq_forall_one _ _
          (fun a _ => fillsFor_contrib_ge_one idmap a) hfl
        have hle : ∀ y ∈ (m1Rows lb idmap).filter (fun z => z.batter_id.isNone),
            (relaxedMatches idmap y.lrow).length ≤ 1 := by
          intro y hy
          have h1 := hone y hy
          by_cases hemp2 : (relaxedMatches idmap y.lrow).isEmpty
          · rw [List.isEmpty_iff.mp hemp2]; simp
          · rw [if_neg hemp2, List.length_map] at h1; omega
        rw [fillsFor_eq_flatMap, ← fillsFor_eq_flatMap, fillsFor_eq_map _ _ hle,
          assignFills_map_filter]
        rw [List.getElem?_map, hx]
        simp [hnone]

theorem twoStage_some_of_le_one (lb : List NLBRow) (idmap : List MapRow)
    (hstrict : ∀ r ∈ lb, (strictMatches idmap r).length ≤ 1)
    (hrelax : ∀ r ∈ lb, strictMatches idmap r = [] → (relaxedMatches idmap r).length ≤ 1) :
    ∃ out, twoStage lb idmap = some out ∧ out.length = lb.length := by
  have hm1 := m1Rows_eq_map lb idmap hstrict
  have hlen1 : (m1Rows lb idmap).length = lb.length := by rw [hm1, List.length_map]
  simp only [twoStage]
  split
  · exact ⟨_, rfl, hlen1⟩
  · rw [if_neg fun h => h hlen1]
    have hle : ∀ y ∈ (m1Rows lb idmap).filter (fun z => z.batter_id.isNone),
        (relaxedMatches idmap y.lrow).length ≤ 1 := by
      intro y hy
      have hymem := (List.mem_filter.mp hy).1
      have hynone : y.batter_id.isNone = true := (List.mem_filter.mp hy).2
      rw [hm1] at hymem
      rcases List.mem_map.mp hymem with ⟨r, hr, rfl⟩
      have hstr : strictMatches idmap r = [] := by
        cases hms : strictMatches idmap r with
        | nil => rfl
        | cons a t => rw [hms] at hynone; simp at hynone
      exact hrelax r hr hstr
    have hfl : (fillsFor idmap ((m1Rows lb idmap).filter fun z => z.batter_id.isNone)).length
        = ((m1Rows lb idmap).filter fun z => z.batter_id.isNone).length := by
      rw [fillsFor_eq_map _ _ hle, List.length_map]
    rw [if_neg fun h => h hfl]
    exact ⟨_, rfl, by rw [assignFills_length, hlen1]⟩

/-! ## Helper lemmas: merge mode -/

theorem string_append_inj (a b c : String) (h : a ++ b = a ++ c) : b = c := by
  have hd : (a ++ b).data = (a ++ c).data := by rw [h]
  rw [String.data_append, String.data_append] at hd
  have h2 := List.append_cancel_left hd
  cases b
  cases c
  exact congrArg String.mk h2

theorem dedupe_concat_crash (old yday : DF) (h : old.rows.length + yday.rows.length ≠ 1) :
    dedupe_concat old yday = none := by
  simp only [dedupe_concat]
  rw [if_pos]
  simp only [List.length_append, reindex, List.length_map]
  exact h

theorem dedupe_concat_some_le_one (old yday : DF) (out : DF)
    (h : dedupe_concat old yday = some out) : out.rows.length ≤ 1 := by
  simp only [dedupe_concat] at h
  split at h
  · exact absurd h (by simp)
  · rename_i hlen
    rw [Ne, not_not] at hlen
    injection h with h
    subst h
    exact le_trans (dropDupKeepLast_sublist (rowKey _) _).length_le (le_of_eq hlen)

theorem rowKey_none_of_date_none (cols : List String) (r : List Cell)
    (h : getCell cols r "game_date" = none) : rowKey cols r = none := by
  by_cases hb : cols.contains "batter_id" <;> simp [rowKey, h, hb]

theorem dropDup_rowKey_none_le_one (cols : List String) (l : List (List Cell)) :
    ((dropDupKeepLast (rowKey cols) l).filter fun r => (rowKey cols r).isNone).length ≤ 1 := by
  refine filter_const_key_length_le_one (rowKey cols) none _ ?_ _
    (dropDupKeepLast_pairwise (rowKey cols) l)
  intro r hr
  exact Option.isNone_iff_eq_none.mp hr

theorem rowKey_name_sensitive (cols : List String) (r1 r2 : List Cell) (d i n1 n2 : String)
    (hb : cols.contains "batter_id" = true) (hp : cols.contains "player_name" = true)
    (hd1 : getCell cols r1 "game_date" = some d) (hd2 : getCell cols r2 "game_date" = some d)
    (hi1 : getCell cols r1 "batter_id" = some i) (hi2 : getCell cols r2 "batter_id" = some i)
    (hn1 : getCell cols r1 "player_name" = some n1)
    (hn2 : getCell cols r2 "player_name" = some n2)
    (hne : n1 ≠ n2) : rowKey cols r1 ≠ rowKey cols r2 := by
  intro h
  simp only [rowKey, hb, hp, if_true, hd1, hd2, hi1, hi2, hn1, hn2] at h
  simp only [Option.getD_some, Option.some.injEq] at h
  exact hne (string_append_inj _ _ _ h)

/-! ## Helper lemmas: name-normalization invariances -/

/-- Apply a character substitution to a string. -/
def mapStr (f : Char → Char) (s : String) : String :=
  String.mk (s.data.map f)

/-- Duplicate every space character of a character list (a representative
whitespace-run change). -/
def dupSp : List Char → List Char
  | [] => []
  | c :: t => if c = ' ' then ' ' :: ' ' :: dupSp t else c :: dupSp t

/-- Duplicate every space character of a string. -/
def dupSpaces (s : String) : String :=
  String.mk (dupSp s.data)

theorem toLower_eq_self (c : Char) (h : 123 ≤ c.toNat) : Char.toLower c = c := by
  simp only [Char.toLower]
  rw [if_neg]
  omega

theorem toUpper_eq_self (c : Char) (h : 123 ≤ c.toNat) : Char.toUpper c = c := by
  simp only [Char.toUpper]
  rw [if_neg]
  omega

theorem caseAux : ∀ n : Fin 123,
    Char.toUpper (unidecodeChar (Char.toLower (Char.ofNat n.val))) =
      Char.toUpper (unidecodeChar (Char.ofNat n.val)) := by decide

theorem toUpper_unidecodeChar_toLower (c : Char) :
    Char.toUpper (unidecodeChar (Char.toLower c)) = Char.toUpper (unidecodeChar c) := by
  by_cases h : c.toNat < 123
  · have := caseAux ⟨c.toNat, h⟩
    simpa [Char.ofNat_toNat] using this
  · rw [toLower_eq_self c (by omega)]

theorem spaceAux : ∀ n : Fin 123,
    (Char.toUpper (unidecodeChar (Char.ofNat n.val)) = ' ') ↔ n.val = 32 := by decide

theorem lookup_mem_pairs (a b : Char) :
    ∀ ps : List (Char × Char), ps.lookup a = some b → (a, b) ∈ ps := by
  intro ps
  induction ps with
  | nil => intro h; simp [List.lookup] at h
  | cons p t ih =>
    obtain ⟨k, v⟩ := p
    intro h
    rw [List.lookup] at h
    cases hak : a == k with
    | true =>
      rw [hak] at h
      simp only [Option.some.injEq] at h
      subst h
      have : a = k := eq_of_beq hak
      subst this
      exact List.mem_cons_self _ _
    | false =>
      rw [hak] at h
      exact List.mem_cons_of_mem _ (ih h)

theorem translit_toUpper_ne_space : ∀ p ∈ translitTable, Char.toUpper p.2 ≠ ' ' := by decide

theorem toUpper_unidecodeChar_eq_space_iff (c : Char) :
    (Char.toUpper (unidecodeChar c) = ' ') ↔ c = ' ' := by
  by_cases h : c.toNat < 123
  · have haux := spaceAux ⟨c.toNat, h⟩
    simp only [Char.ofNat_toNat] at haux
    rw [haux]
    constructor
    · intro h32
      have e := Char.ofNat_toNat c
      rw [h32] at e
      exact e.symm.trans (by decide)
    · intro he
      subst he
      decide
  · have hcne : c ≠ ' ' := fun e => by subst e; exact h (by decide)
    simp only [unidecodeChar]
    cases hl : translitTable.lookup c with
    | some v =>
      have hmem := lookup_mem_pairs c v translitTable hl
      have hv := translit_toUpper_ne_space (c, v) hmem
      simp only [Option.getD_some]
      exact ⟨fun hup => absurd hup hv, fun he => absurd he hcne⟩
    | none =>
      simp only [Option.getD_none]
      rw [toUpper_eq_self c (by omega)]

theorem map_dupSp (g : Char → Char) (hg : ∀ c, g c = ' ' ↔ c = ' ') :
    ∀ l, (dupSp l).map g = dupSp (l.map g) := by
  intro l
  induction l with
  | nil => rfl
  | cons c t ih =>
    by_cases hc : c = ' '
    · subst hc
      have hg' : g ' ' = ' ' := (hg ' ').mpr rfl
      simp [dupSp, hg', ih]
    · have hgc : ¬ g c = ' ' := fun hh => hc ((hg c).mp hh)
      simp [dupSp, hc, hgc, ih]

theorem dropWhile_dupSp :
    ∀ l, (dupSp l).dropWhile isPySpace = dupSp (l.dropWhile isPySpace) := by
  intro l
  induction l with
  | nil => rfl
  | cons c t ih =>
    have hsp : isPySpace ' ' = true := by decide
    by_cases hc : c = ' '
    · subst hc
      rw [dupSp, if_pos rfl]
      rw [List.dropWhile_cons_of_pos hsp, List.dropWhile_cons_of_pos hsp,
        List.dropWhile_cons_of_pos hsp]
      exact ih
    · by_cases hw : isPySpace c
      · rw [dupSp, if_neg hc]
        rw [List.dropWhile_cons_of_pos hw, List.dropWhile_cons_of_pos hw]
        exact ih
      · rw [dupSp, if_neg hc]
        rw [List.dropWhile_cons_of_neg hw, List.dropWhile_cons_of_neg hw]
        rw [dupSp, if_neg hc]

theorem dupSp_append : ∀ a b : List Char, dupSp (a ++ b) = dupSp a ++ dupSp b := by
  intro a b
  induction a with
  | nil => rfl
  | cons c t ih =>
    by_cases hc : c = ' ' <;> simp [dupSp, hc, ih]

theorem dupSp_reverse : ∀ l : List Char, dupSp l.reverse = (dupSp l).reverse := by
  intro l
  induction l with
  | nil => rfl
  | cons c t ih =>
    by_cases hc : c = ' ' <;> simp [dupSp, hc, dupSp_append, ih]

theorem pyStripList_dupSp (l : List Char) :
    pyStripList (dupSp l) = dupSp (pyStripList l) := by
  unfold pyStripList
  rw [dropWhile_dupSp, ← dupSp_reverse, dropWhile_dupSp, ← dupSp_reverse]

theorem squeezeSpaces_cons (a : Char) (t : List Char) :
    squeezeSpaces (a :: t) = match squeezeSpaces t with
      | [] => [a]
      | b :: tl => if a = ' ' && b = ' ' then b :: tl else a :: b :: tl := rfl

theorem squeezeSpaces_head_space (t : List Char) :
    ∃ tl, squeezeSpaces (' ' :: t) = ' ' :: tl := by
  rw [squeezeSpaces_cons]
  cases h : squeezeSpaces t with
  | nil => exact ⟨[], rfl⟩
  | cons b tl =>
    by_cases hb : b = ' '
    · subst hb
      exact ⟨tl, by simp⟩
    · exact ⟨b :: tl, by simp [hb]⟩

theorem squeezeSpaces_space_space (t : List Char) :
    squeezeSpaces (' ' :: ' ' :: t) = squeezeSpaces (' ' :: t) := by
  obtain ⟨tl, h⟩ := squeezeSpaces_head_space t
  rw [squeezeSpaces_cons, h]
  simp [h]

theorem squeezeSpaces_congr_cons (a : Char) {X Y : List Char}
    (h : squeezeSpaces X = squeezeSpaces Y) :
    squeezeSpaces (a :: X) = squeezeSpaces (a :: Y) := by
  rw [squeezeSpaces_cons, squeezeSpaces_cons, h]

theorem squeezeSpaces_map_dupSp (g : Char → Char) (hg : g ' ' = ' ') :
    ∀ l, squeezeSpaces ((dupSp l).map g) = squeezeSpaces (l.map g) := by
  intro l
  induction l with
  | nil => rfl
  | cons c t ih =>
    by_cases hc : c = ' '
    · subst hc
      rw [dupSp, if_pos rfl, List.map_cons, List.map_cons, hg, squeezeSpaces_space_space]
      rw [List.map_cons, hg]
      exact squeezeSpaces_congr_cons ' ' ih
    · rw [dupSp, if_neg hc, List.map_cons, List.map_cons]
      exact squeezeSpaces_congr_cons (g c) ih

theorem clean_name_translit_sub (f : Char → Char)
    (hf : ∀ c, unidecodeChar (f c) = unidecodeChar c) (s : String) :
    clean_name (some (mapStr f s)) = clean_name (some s) := by
  simp only [clean_name, mapStr]
  suffices h : (s.data.map f).map unidecodeChar = s.data.map unidecodeChar by
    rw [h]
  rw [List.map_map]
  exact List.map_congr_left fun c _ => hf c

theorem clean_name_lower (s : String) :
    clean_name (some (mapStr Char.toLower s)) = clean_name (some s) := by
  simp only [clean_name, mapStr]
  suffices h : ((s.data.map Char.toLower).map unidecodeChar).map Char.toUpper
      = (s.data.map unidecodeChar).map Char.toUpper by
    rw [h]
  rw [List.map_map, List.map_map, List.map_map]
  exact List.map_congr_left fun c _ => toUpper_unidecodeChar_toLower c

theorem clean_name_dupSpaces (s : String) :
    clean_name (some (dupSpaces s)) = clean_name (some s) := by
  simp only [clean_name, dupSpaces]
  have hmap : ((dupSp s.data).map unidecodeChar).map Char.toUpper
      = dupSp ((s.data.map unidecodeChar).map Char.toUpper) := by
    rw [List.map_map, List.map_map]
    exact map_dupSp _ (fun c => toUpper_unidecodeChar_eq_space_iff c) s.data
  rw [hmap, pyStripList_dupSp]
  have hsq : squeezeSpaces
        (((dupSp (pyStripList ((s.data.map unidecodeChar).map Char.toUpper))).map
            fun c => if isNamePunct c then ' ' else c).map
          fun c => if isPySpace c then ' ' else c)
      = squeezeSpaces
        (((pyStripList ((s.data.map unidecodeChar).map Char.toUpper)).map
            fun c => if isNamePunct c then ' ' else c).map
          fun c => if isPySpace c then ' ' else c) := by
    simp only [List.map_map]
    refine squeezeSpaces_map_dupSp _ ?_ _
    decide
  rw [hsq]


/-! ## Claim theorems -/

/-- Claim C1, counterexample: on the spec's join example the pipeline
produces an UNMATCHED row whose `batter_id` is the empty string, not
`"12345"`, because `clean_name` does not send `"A.J. Smith Jr."` and
`"AJ Smith"` to the same canonical string. -/
theorem c1_counterexample :
    addIdsOut (some 2025) lbC1 mapsC1 =
      some [⟨⟨some "2025-08-13", some "A.J. Smith Jr.", some "nyy", []⟩, "NYY", ""⟩] ∧
    clean_name (some "A.J. Smith Jr.") ≠ clean_name (some "AJ Smith") :=
  ⟨by decide, by decide⟩

/-- Claim C1, amended: `clean_name` maps `"A.J. Smith Jr."` to
`"A J SMITH JR"` (periods become spaces, and the trailing `"JR"` survives
because the final period leaves a trailing space that defeats the `" JR"`
suffix test) while `"AJ Smith"` maps to `"AJ SMITH"`; `std_team` does unify
`"nyy"` and `"NYY"`, and the identifier would normalize to `"12345"`, but the
names differ, so the example's output row carries an empty identifier. -/
theorem c1_amended :
    clean_name (some "A.J. Smith Jr.") = "A J SMITH JR" ∧
    clean_name (some "AJ Smith") = "AJ SMITH" ∧
    std_team (some "nyy") = "NYY" ∧
    std_team (some "NYY") = "NYY" ∧
    safe_str_id (some "12345.0") = "12345" ∧
    (addIdsOut (some 2025) lbC1 mapsC1).map (List.map OutRow.batter_id) = some [""] :=
  ⟨by decide, by decide, by decide, by decide, by decide, by decide⟩

/-- Claim C2, counterexample: with a duplicated relaxed `(date, name)` key in
the identifier map and one strictly-unmatched leaderboard row, the stage-2
fill column is longer than the masked selection and the assignment raises,
so the join does not complete at all (no output row survives, let alone
every row exactly once). -/
theorem c2_counterexample : addIds (some 2025) lbC2 mapsC2 = none := by decide

/-- Claim C2, amended: row-count preservation holds as long as every
leaderboard row left unmatched by stage 1 has at most one relaxed
`(date, name)` match in the identifier map; then the join completes and the
output has exactly one row per leaderboard row.  (When some unmatched row
has several relaxed matches, the run aborts with an error instead.) -/
theorem c2_amended (sy : Option Nat) (lbt : LBTable) (maps : List MapTableRaw)
    (hmaps : maps.isEmpty = false)
    (hdates : (normalizeLB sy lbt).all (fun r => r.date.isNone) = false)
    (hrelax : ∀ r ∈ normalizeLB sy lbt, strictMatches (buildIdmap sy maps) r = [] →
      (relaxedMatches (buildIdmap sy maps) r).length ≤ 1) :
    ∃ out, addIds sy lbt maps = some out ∧ out.length = lbt.rows.length := by
  have hstrict : ∀ r ∈ normalizeLB sy lbt, (strictMatches (buildIdmap sy maps) r).length ≤ 1 :=
    fun r _ => strictMatches_length_le_one _ r (buildIdmap_pairwise sy maps)
  rcases twoStage_some_of_le_one (normalizeLB sy lbt) (buildIdmap sy maps) hstrict hrelax
    with ⟨out, hout, hlen⟩
  refine ⟨out, ?_, ?_⟩
  · simp only [addIds]
    rw [if_neg (by simp [hmaps]), if_neg (by simp [hdates])]
    exact hout
  · rw [hlen]
    simp [normalizeLB]

/-- Claim C2, witness: a concrete run satisfying the amended hypotheses. -/
theorem c2_witness :
    ∃ out, addIds (some 2025) lbC2w mapsC2 = some out ∧ out.length = lbC2w.rows.length :=
  c2_amended (some 2025) lbC2w mapsC2 (by decide) (by decide) (by decide)

/-- Claim C3, counterexample: when the relaxed `(date, name)` key is
duplicated in the identifier map (same date and name, two teams) and a
still-unmatched row joins to it, the code raises instead of attaching the
last occurrence's identifier — there is no output at all. -/
theorem c3_counterexample : addIds (some 2025) lbC3 mapsC3 = none := by decide

/-- Claim C3, amended: in every run that completes, a row still missing an
identifier after stage 1 receives the identifier of the FIRST (equivalently,
unique — the run errors out whenever a needed row has several relaxed
matches) map row matching on `(date, name)` with the team column dropped,
and `none` when there is no relaxed match. -/
theorem c3_amended (lb : List NLBRow) (idmap : List MapRow) (out : List M1Row)
    (hout : twoStage lb idmap = some out) (i : Nat) (x : M1Row)
    (hx : (m1Rows lb idmap)[i]? = some x) (hnone : x.batter_id = none) :
    out[i]? = some ⟨x.lrow, ((relaxedMatches idmap x.lrow).head?).map MapRow.batter_id⟩ :=
  twoStage_needed lb idmap out hout i x hx hnone

/-- Claim C3, witness: a stage-2 fill at a concrete input. -/
theorem c3_witness :
    ([(⟨nrowC3w, some "77"⟩ : M1Row)] : List M1Row)[0]? =
      some ⟨nrowC3w, ((relaxedMatches idmapC3w nrowC3w).head?).map MapRow.batter_id⟩ :=
  c3_amended lbC3w idmapC3w [⟨nrowC3w, some "77"⟩] (by decide) 0 ⟨nrowC3w, none⟩ (by decide) rfl

/-- Claim C4, counterexample: two combined rows with the same date and the
same non-empty identifier but different player names are NOT deduplicated to
one row — `dedupe_concat` does not even complete on them, because the
eagerly-built default name series raises for any combined table of more than
one row. -/
theorem c4_counterexample : dedupe_concat oldC4 newC4 = none := by decide

/-- Claim C4, amended: `dedupe_concat` raises unless the combined table has
exactly one row (the `out.get("player_name", pd.Series([""], index=...))`
default is built eagerly from a length-1 list); and the composite key, when
a `batter_id` column exists, concatenates date, identifier AND player name —
so two rows agreeing on date and identifier but differing in name would
receive different keys, never `(date, identifier)` alone. -/
theorem c4_amended :
    (∀ old yday : DF, old.rows.length + yday.rows.length ≠ 1 →
      dedupe_concat old yday = none) ∧
    (∀ (cols : List String) (r1 r2 : List Cell) (d i n1 n2 : String),
      cols.contains "batter_id" = true → cols.contains "player_name" = true →
      getCell cols r1 "game_date" = some d → getCell cols r2 "game_date" = some d →
      getCell cols r1 "batter_id" = some i → getCell cols r2 "batter_id" = some i →
      getCell cols r1 "player_name" = some n1 → getCell cols r2 "player_name" = some n2 →
      n1 ≠ n2 → rowKey cols r1 ≠ rowKey cols r2) :=
  ⟨dedupe_concat_crash, rowKey_name_sensitive⟩

/-- Claim C4, witness: both amended conjuncts at concrete inputs. -/
theorem c4_witness :
    dedupe_concat oldC4W newC4W = none ∧
    rowKey ["game_date", "player_name", "batter_id"]
        [some "2025-08-14", some "Ann", some "100"] ≠
      rowKey ["game_date", "player_name", "batter_id"]
        [some "2025-08-14", some "Bob", some "100"] :=
  ⟨c4_amended.1 oldC4W newC4W (by decide),
   c4_amended.2 ["game_date", "player_name", "batter_id"]
     [some "2025-08-14", some "Ann", some "100"] [some "2025-08-14", some "Bob", some "100"]
     "2025-08-14" "100" "Ann" "Bob" (by decide) (by decide) (by decide) (by decide)
     (by decide) (by decide) (by decide) (by decide) (by decide)⟩

/-- Claim C5, counterexample: `"John Smith Jr."` and `"John Smith"` differ
only by a trailing generational suffix (`Jr.`), and `"A.J"` and `"AJ"`
differ only by a period, yet `clean_name` separates both pairs: punctuation
is replaced by a space (not removed), and the space left by a trailing
period defeats the suffix test. -/
theorem c5_counterexample :
    clean_name (some "John Smith Jr.") ≠ clean_name (some "John Smith") ∧
    clean_name (some "A.J") ≠ clean_name (some "AJ") :=
  ⟨by decide, by decide⟩

/-- Claim C5, amended: `clean_name` is invariant, for every input string,
under character substitutions that transliterate identically (accents),
under lowercasing, and under doubling of space characters (whitespace
runs); bare trailing suffixes (`Jr`, `, Jr`, `III`, ... without a final
period) are stripped.  Punctuation among period/hyphen/apostrophe is
replaced by a space rather than removed, so names differing by such
punctuation (or by a suffix ending in a period) are NOT identified — see
the counterexample. -/
theorem c5_amended :
    (∀ f : Char → Char, (∀ c, unidecodeChar (f c) = unidecodeChar c) →
      ∀ s : String, clean_name (some (mapStr f s)) = clean_name (some s)) ∧
    (∀ s : String, clean_name (some (mapStr Char.toLower s)) = clean_name (some s)) ∧
    (∀ s : String, clean_name (some (dupSpaces s)) = clean_name (some s)) ∧
    clean_name (some "Ken Griffey Jr") = clean_name (some "Ken Griffey") ∧
    clean_name (some "Cal Ripken, Jr") = clean_name (some "Cal Ripken") ∧
    clean_name (some "Alex Diaz III") = clean_name (some "Alex Diaz") :=
  ⟨clean_name_translit_sub, clean_name_lower, clean_name_dupSpaces,
   by decide, by decide, by decide⟩

/-- An accenting substitution: `E` becomes `É` (transliterates back to `E`). -/
def accentE (c : Char) : Char := if c = 'E' then 'É' else c

/-- Claim C5, witness: the substitution invariance applied to a concrete
accenting function and string. -/
theorem c5_witness : clean_name (some (mapStr accentE "PEREZ")) = clean_name (some "PEREZ") :=
  c5_amended.1 accentE
    (fun c => by
      by_cases h : c = 'E'
      · subst h; decide
      · simp [accentE, h])
    "PEREZ"

/-- Claim C6: a leaderboard row that received an identifier in stage 1 is
passed through to the merged result unchanged — the stage-2 fill only
touches rows whose identifier is still missing. -/
theorem c6_stage1_precedence (lb : List NLBRow) (idmap : List MapRow) (out : List M1Row)
    (hout : twoStage lb idmap = some out) (i : Nat) (x : M1Row)
    (hx : (m1Rows lb idmap)[i]? = some x) (hsome : x.batter_id.isSome = true) :
    out[i]? = some x :=
  twoStage_untouched lb idmap out hout i x hx hsome

/-- Claim C6, witness: a concrete stage-1 match surviving unchanged. -/
theorem c6_witness :
    ([(⟨nrowC6w, some "55"⟩ : M1Row)] : List M1Row)[0]? = some ⟨nrowC6w, some "55"⟩ :=
  c6_stage1_precedence lbC6w idmapC6w [⟨nrowC6w, some "55"⟩] (by decide) 0
    ⟨nrowC6w, some "55"⟩ (by decide) rfl

/-- Claim C7: `"8_13"` with fallback year 2025 parses to 2025-08-13, while
`"13_8"` takes 13 as the month, fails validation, and yields the
missing-date marker — in both scripts' date parsers, which never swap the
two fields. -/
theorem c7_fallback_date_order :
    to_date_ymd (some "8_13") (some 2025) = some ⟨2025, 8, 13⟩ ∧
    to_date_ymd (some "13_8") (some 2025) = none ∧
    to_ymd (some "8_13") (some 2025) = some ⟨2025, 8, 13⟩ ∧
    to_ymd (some "13_8") (some 2025) = none :=
  ⟨by decide, by decide, by decide, by decide⟩

/-- Claim C8: on the spec's own merge example (same composite key, stat 5
vs stat 9) the append pipeline produces no output at all — the eager
construction of the default player-name series raises on the two-row
combined table, so "newer wins" never happens. -/
theorem c8_code_bug : appendPipeline (some 2025) oldC8 newC8 = none := by decide

/-- Claim C9, counterexample: two one-row tables with unparseable dates and
distinct players produce NO merged output (the dedupe raises on the two-row
combined table), rather than an output in which the NA-keyed rows collapsed
to the last one. -/
theorem c9_counterexample : appendPipeline (some 2025) oldC9 newC9 = none := by decide

/-- Claim C9, amended: the dedupe key IS missing for every row whose date is
missing, regardless of its name or identifier; keep-last deduplication DOES
leave at most one missing-keyed row; but a completed `dedupe_concat` run can
only ever hold at most one row in total, because any larger combined table
makes the eagerly-built default name series raise. -/
theorem c9_amended :
    (∀ (cols : List String) (r : List Cell),
      getCell cols r "game_date" = none → rowKey cols r = none) ∧
    (∀ (cols : List String) (l : List (List Cell)),
      ((dropDupKeepLast (rowKey cols) l).filter fun r => (rowKey cols r).isNone).length ≤ 1) ∧
    (∀ old yday out : DF, dedupe_concat old yday = some out → out.rows.length ≤ 1) :=
  ⟨rowKey_none_of_date_none, dropDup_rowKey_none_le_one, dedupe_concat_some_le_one⟩

/-- Claim C9, witness: the amended conjuncts at concrete inputs. -/
theorem c9_witness :
    rowKey ["game_date", "player_name"] [none, some "Alice"] = none ∧
    ((dropDupKeepLast (rowKey ["game_date"]) [[none], [none]]).filter
      fun r => (rowKey ["game_date"] r).isNone).length ≤ 1 ∧
    (⟨["game_date"], [[some "2025-01-01"]]⟩ : DF).rows.length ≤ 1 :=
  ⟨c9_amended.1 ["game_date", "player_name"] [none, some "Alice"] (by decide),
   c9_amended.2.1 ["game_date"] [[none], [none]],
   c9_amended.2.2 ⟨["game_date"], [[some "2025-01-01"]]⟩ ⟨["game_date"], []⟩
     ⟨["game_date"], [[some "2025-01-01"]]⟩ (by decide)⟩

/-- Claim C10: a leaderboard row whose strict triple matches a map row with
a missing identifier gets the empty string `""` in stage 1, counts as
matched (the empty string is not NA), is never revisited by the stage-2
fill, and its identifier stays empty even when a relaxed match with a
non-empty identifier exists. -/
theorem c10_empty_id_matched (sy : Option Nat) (lbt : LBTable) (maps : List MapTableRaw)
    (out : List M1Row) (hout : addIds sy lbt maps = some out)
    (i : Nat) (r : NLBRow) (hr : (normalizeLB sy lbt)[i]? = some r)
    (mr : MapRow) (hstr : strictMatches (buildIdmap sy maps) r = [mr])
    (hid : mr.batter_id = "")
    (mr2 : MapRow) (hmr2 : mr2 ∈ relaxedMatches (buildIdmap sy maps) r)
    (hmr2id : mr2.batter_id ≠ "") :
    out[i]? = some ⟨r, some ""⟩ := by
  simp only [addIds] at hout
  split at hout
  · exact absurd hout (by simp)
  · split at hout
    · exact absurd hout (by simp)
    · have hstrict : ∀ r' ∈ normalizeLB sy lbt,
          (strictMatches (buildIdmap sy maps) r').length ≤ 1 :=
        fun r' _ => strictMatches_length_le_one _ r' (buildIdmap_pairwise sy maps)
      have hm1 := m1Rows_eq_map _ _ hstrict
      have hx : (m1Rows (normalizeLB sy lbt) (buildIdmap sy maps))[i]? = some ⟨r, some ""⟩ := by
        rw [hm1, List.getElem?_map, hr]
        simp [hstr, hid]
      exact twoStage_untouched _ _ out hout i _ hx rfl

/-- Claim C10, witness: the concrete scenario with an empty strict-match
identifier and a non-empty relaxed alternative. -/
theorem c10_witness :
    ∃ out, addIds (some 2025) lbC10 mapsC10 = some out ∧ out[0]? = some ⟨nrowC10, some ""⟩ :=
  ⟨[⟨nrowC10, some ""⟩], by decide,
   c10_empty_id_matched (some 2025) lbC10 mapsC10 [⟨nrowC10, some ""⟩] (by decide) 0 nrowC10
     (by decide) ⟨some ⟨2025, 5, 5⟩, "G H", "M", ""⟩ (by decide) rfl
     ⟨some ⟨2025, 5, 5⟩, "G H", "N", "999"⟩ (by decide) (by decide)⟩
